import Mathlib

/-!
# Verification of the chunked parallel scan/merge engine (`dynamics_multicore.py`)

A shallow embedding of the chunk planner (`get_file_chunks`), the chunk
reader (`read_csv_chunk`), and the per-chunk phase workers, together with
proofs and refutations of the specified properties.

A source file is modelled as its list of bytes; the line terminator is the
byte 10.  Python file-object semantics are modelled explicitly:
`seek` past end-of-file is allowed, `readline` at or past end-of-file reads
nothing and leaves the cursor in place, and `read(n)` for `n < -1` raises
`ValueError` (modelled as `none`) while `read(-1)` reads to end-of-file.
-/

set_option autoImplicit false

namespace Dynamics

/-- A source file modelled as its list of bytes (a byte is a `Nat`; the
line terminator is the byte 10). -/
abbrev FileBytes := List Nat

/-- Number of bytes a `readline` call consumes from the remaining suffix
`l` of the file: everything up to and including the first newline byte,
or the whole suffix when no newline remains. -/
def lineEndFrom : List Nat → Nat
  | [] => 0
  | b :: rest => if b = 10 then 1 else 1 + lineEndFrom rest

/-- Cursor position after `f.seek(pos); f.readline()`: when `pos` is inside
the file, the position just past the next newline (or end-of-file when no
newline remains); when `pos` is at or past end-of-file, `readline` returns
no bytes and the cursor stays at `pos` (Python permits seeking past EOF). -/
def readlineEnd (file : FileBytes) (pos : Nat) : Nat :=
  if file.length ≤ pos then pos else pos + lineEndFrom (file.drop pos)

/-- The loop body of `get_file_chunks`: `n` iterations remain and the cursor
is at `currentPos`.  Each emitted range is `(start, length)`; the length is
an integer because the final iteration emits `(start, file_size - start)`
even when `start` has run past end-of-file. -/
def getFileChunksLoop (file : FileBytes) (chunkSize : Nat) : Nat → Nat → List (Nat × Int)
  | 0, _ => []
  | 1, currentPos => [(currentPos, (file.length : Int) - (currentPos : Int))]
  | n + 2, currentPos =>
      let e := readlineEnd file (currentPos + chunkSize)
      (currentPos, (e : Int) - (currentPos : Int)) :: getFileChunksLoop file chunkSize (n + 1) e

/-- `get_file_chunks(file_path, n_chunks)`: split the file into `n_chunks`
byte ranges.  The nominal chunk size is `file_size // n_chunks`; every
range but the last ends by scanning from the nominal boundary to the next
newline with `readline`; the last range is `(start, file_size - start)`. -/
def get_file_chunks (file : FileBytes) (nChunks : Nat) : List (Nat × Int) :=
  getFileChunksLoop file (file.length / nChunks) nChunks 0

/-- `f.seek(start); f.read(num)` on a binary file: a negative size other
than `-1` raises `ValueError` (`none`); `-1` reads to end-of-file;
otherwise at most `num` bytes are returned (fewer near end-of-file). -/
def fileRead (file : FileBytes) (start : Nat) (num : Int) : Option (List Nat) :=
  if num < -1 then none
  else if num < 0 then some (file.drop start)
  else some ((file.drop start).take num.toNat)

/-- Concatenation, in plan order, of the raw bytes each range reads
(`seek(start)` then `read(num_bytes)`, as `read_csv_chunk` does); `none`
when any single read raises. -/
def concatReads (file : FileBytes) : List (Nat × Int) → Option (List Nat)
  | [] => some []
  | (s, l) :: rest =>
      match fileRead file s l, concatReads file rest with
      | some d, some r => some (d ++ r)
      | _, _ => none

/-- The ranges chain contiguously starting from position `p`:
each range starts exactly where the previous one ended. -/
def contiguousFromB : Int → List (Nat × Int) → Bool
  | _, [] => true
  | p, (s, l) :: rest => decide ((s : Int) = p) && contiguousFromB ((s : Int) + l) rest

/-- The end positions of all ranges except the last: the internal
boundaries of the plan. -/
def internalBounds (plan : List (Nat × Int)) : List Int :=
  plan.dropLast.map fun sl => (sl.1 : Int) + sl.2

/-- Boundary `b` immediately follows a line terminator: the byte just
before position `b` is a newline. -/
def afterNewlineB (file : FileBytes) (b : Int) : Bool :=
  decide (1 ≤ b) && decide (file[(b - 1).toNat]? = some 10)

/-- The final range of the plan starts inside the file and ends exactly at
end-of-file, i.e. it absorbs all remaining bytes. -/
def finalAbsorbsB (file : FileBytes) : List (Nat × Int) → Bool
  | [] => true
  | [sl] => decide ((sl.1 : Int) ≤ (file.length : Int)) &&
      decide ((sl.1 : Int) + sl.2 = (file.length : Int))
  | _ :: sl :: rest => finalAbsorbsB file (sl :: rest)

/-- Claim C1 exactly as stated: the plan has `n` ranges, contiguous,
non-overlapping (all lengths nonnegative), lengths summing to the file
size, every internal boundary immediately following a line terminator, and
the final chunk absorbing all remaining bytes to end-of-file. -/
def chunkPlanClaimB (file : FileBytes) (n : Nat) : Bool :=
  let plan := get_file_chunks file n
  decide (plan.length = n) &&
  contiguousFromB 0 plan &&
  plan.all (fun sl => decide (0 ≤ sl.2)) &&
  decide ((plan.map Prod.snd).sum = (file.length : Int)) &&
  (internalBounds plan).all (fun b => afterNewlineB file b) &&
  finalAbsorbsB file plan

example : get_file_chunks [97, 98, 10, 99, 100, 10] 4 = [(0, 3), (3, 3), (6, 1), (7, -1)] := by
  decide

example : get_file_chunks [97, 98, 10, 99, 100, 10] 2 = [(0, 6), (6, 0)] := by decide

example : chunkPlanClaimB [97, 98, 10, 99, 100, 10] 2 = true := by decide

example : chunkPlanClaimB [97, 98, 10, 99, 100, 10] 4 = false := by decide

example : concatReads [97, 98, 10, 99, 100, 10] (get_file_chunks [97, 98, 10, 99, 100, 10] 4)
    = some [97, 98, 10, 99, 100, 10] := by decide

example : concatReads [97, 97, 97, 97, 97, 97, 97, 97, 10]
    (get_file_chunks [97, 97, 97, 97, 97, 97, 97, 97, 10] 3) = none := by decide

/-! ### Lemmas about `readline` -/

theorem lineEndFrom_pos : ∀ (l : List Nat), l ≠ [] → 1 ≤ lineEndFrom l
  | [], h => absurd rfl h
  | _ :: _, _ => by
    simp only [lineEndFrom]
    split <;> omega

theorem lineEndFrom_le_length : ∀ (l : List Nat), lineEndFrom l ≤ l.length
  | [] => Nat.le_refl 0
  | b :: rest => by
    have ih := lineEndFrom_le_length rest
    simp only [lineEndFrom, List.length_cons]
    split <;> omega

theorem lineEndFrom_newline_or_eof : ∀ (l : List Nat), l ≠ [] →
    l[lineEndFrom l - 1]? = some 10 ∨ lineEndFrom l = l.length
  | [], h => absurd rfl h
  | b :: rest, _ => by
    by_cases hb : b = 10
    · left
      simp [lineEndFrom, hb]
    · rcases eq_or_ne rest [] with hr | hr
      · right
        simp [lineEndFrom, hb, hr]
      · have ih := lineEndFrom_newline_or_eof rest hr
        have hpos := lineEndFrom_pos rest hr
        simp only [lineEndFrom, if_neg hb, List.length_cons]
        obtain ⟨m, hm⟩ : ∃ m, lineEndFrom rest = m + 1 := ⟨lineEndFrom rest - 1, by omega⟩
        rcases ih with ih | ih
        · left
          rw [hm] at ih ⊢
          have h1 : 1 + (m + 1) - 1 = m + 1 := by omega
          rw [h1, List.getElem?_cons_succ]
          simpa using ih
        · right
          omega

theorem readlineEnd_ge (file : FileBytes) (pos : Nat) : pos ≤ readlineEnd file pos := by
  unfold readlineEnd
  split <;> omega

theorem readlineEnd_le (file : FileBytes) (pos : Nat) (h : pos < file.length) :
    readlineEnd file pos ≤ file.length := by
  unfold readlineEnd
  rw [if_neg (by omega)]
  have h1 := lineEndFrom_le_length (file.drop pos)
  rw [List.length_drop] at h1
  omega

theorem readlineEnd_newline_or_eof (file : FileBytes) (pos : Nat) :
    (1 ≤ readlineEnd file pos ∧ file[readlineEnd file pos - 1]? = some 10) ∨
      file.length ≤ readlineEnd file pos := by
  unfold readlineEnd
  split
  · right
    omega
  · rename_i h
    push_neg at h
    have hne : file.drop pos ≠ [] := by
      intro hnil
      have h2 := congrArg List.length hnil
      rw [List.length_drop] at h2
      simp at h2
      omega
    rcases lineEndFrom_newline_or_eof (file.drop pos) hne with hl | hl
    · left
      have hpos := lineEndFrom_pos (file.drop pos) hne
      refine ⟨by omega, ?_⟩
      have h3 : pos + lineEndFrom (file.drop pos) - 1 = pos + (lineEndFrom (file.drop pos) - 1) := by
        omega
      rw [h3, ← List.getElem?_drop]
      exact hl
    · right
      rw [List.length_drop] at hl
      omega

/-! ### Lemmas about the planner loop -/

theorem getFileChunksLoop_length (file : FileBytes) (cs : Nat) :
    ∀ (n pos : Nat), (getFileChunksLoop file cs n pos).length = n
  | 0, _ => rfl
  | 1, _ => rfl
  | n + 2, pos => by
    simp only [getFileChunksLoop, List.length_cons]
    rw [getFileChunksLoop_length file cs (n + 1) _]

theorem getFileChunksLoop_ne_nil (file : FileBytes) (cs n pos : Nat) (hn : 1 ≤ n) :
    getFileChunksLoop file cs n pos ≠ [] := by
  intro hnil
  have h := getFileChunksLoop_length file cs n pos
  rw [hnil] at h
  simp at h
  omega

theorem getFileChunksLoop_contiguous (file : FileBytes) (cs : Nat) :
    ∀ (n pos : Nat), contiguousFromB (pos : Int) (getFileChunksLoop file cs n pos) = true
  | 0, _ => rfl
  | 1, pos => by simp [getFileChunksLoop, contiguousFromB]
  | n + 2, pos => by
    simp only [getFileChunksLoop, contiguousFromB, Bool.and_eq_true, decide_eq_true_eq]
    refine ⟨by simp, ?_⟩
    have h : (pos : Int) + ((readlineEnd file (pos + cs) : Int) - (pos : Int))
        = (readlineEnd file (pos + cs) : Int) := by ring
    rw [h]
    exact getFileChunksLoop_contiguous file cs (n + 1) (readlineEnd file (pos + cs))

theorem getFileChunksLoop_sum (file : FileBytes) (cs : Nat) :
    ∀ (n pos : Nat), 1 ≤ n →
      ((getFileChunksLoop file cs n pos).map Prod.snd).sum = (file.length : Int) - (pos : Int)
  | 0, _, h => by omega
  | 1, pos, _ => by simp [getFileChunksLoop]
  | n + 2, pos, _ => by
    simp only [getFileChunksLoop, List.map_cons, List.sum_cons]
    rw [getFileChunksLoop_sum file cs (n + 1) _ (by omega)]
    ring

theorem internalBounds_cons (a : Nat × Int) (l : List (Nat × Int)) (h : l ≠ []) :
    internalBounds (a :: l) = ((a.1 : Int) + a.2) :: internalBounds l := by
  cases l with
  | nil => exact absurd rfl h
  | cons b t => simp [internalBounds, List.dropLast]

theorem finalAbsorbsB_cons (file : FileBytes) (a : Nat × Int) (l : List (Nat × Int))
    (h : l ≠ []) : finalAbsorbsB file (a :: l) = finalAbsorbsB file l := by
  cases l with
  | nil => exact absurd rfl h
  | cons b t => rfl

theorem getFileChunksLoop_bounds (file : FileBytes) (cs : Nat) :
    ∀ (n pos : Nat), ∀ b ∈ internalBounds (getFileChunksLoop file cs n pos),
      ∃ p : Nat, b = (readlineEnd file p : Int)
  | 0, _ => by simp [getFileChunksLoop, internalBounds]
  | 1, pos => by simp [getFileChunksLoop, internalBounds]
  | n + 2, pos => by
    intro b hb
    simp only [getFileChunksLoop] at hb
    rw [internalBounds_cons _ _
      (getFileChunksLoop_ne_nil file cs (n + 1) _ (by omega))] at hb
    rcases List.mem_cons.mp hb with hb | hb
    · refine ⟨pos + cs, ?_⟩
      rw [hb]
      push_cast
      ring
    · exact getFileChunksLoop_bounds file cs (n + 1) _ b hb

theorem afterNewlineB_natCast (file : FileBytes) (e : Nat) (h1 : 1 ≤ e)
    (h2 : file[e - 1]? = some 10) : afterNewlineB file (e : Int) = true := by
  unfold afterNewlineB
  have h3 : ((e : Int) - 1).toNat = e - 1 := by omega
  rw [h3]
  simp [h2]
  omega

theorem getFileChunksLoop_boundary_ok (file : FileBytes) (cs n pos : Nat) :
    ∀ b ∈ internalBounds (getFileChunksLoop file cs n pos),
      afterNewlineB file b = true ∨ (file.length : Int) ≤ b := by
  intro b hb
  obtain ⟨p, hp⟩ := getFileChunksLoop_bounds file cs n pos b hb
  subst hp
  rcases readlineEnd_newline_or_eof file p with ⟨h1, h2⟩ | h
  · left
    exact afterNewlineB_natCast file _ h1 h2
  · right
    exact_mod_cast h

theorem getFileChunksLoop_nonneg (file : FileBytes) (cs : Nat) :
    ∀ (n pos : Nat), 1 ≤ n → pos ≤ file.length →
      (∀ b ∈ internalBounds (getFileChunksLoop file cs n pos), b ≤ (file.length : Int)) →
      (∀ sl ∈ getFileChunksLoop file cs n pos, 0 ≤ sl.2) ∧
        finalAbsorbsB file (getFileChunksLoop file cs n pos) = true
  | 0, _, h, _, _ => by omega
  | 1, pos, _, hpos, _ => by
    constructor
    · intro sl hsl
      simp only [getFileChunksLoop, List.mem_singleton] at hsl
      subst hsl
      simp
      omega
    · simp only [getFileChunksLoop, finalAbsorbsB, Bool.and_eq_true, decide_eq_true_eq]
      constructor
      · exact_mod_cast hpos
      · ring
  | n + 2, pos, _, hpos, hbnd => by
    have hne := getFileChunksLoop_ne_nil file cs (n + 1) (readlineEnd file (pos + cs)) (by omega)
    have hbnd2 : internalBounds (getFileChunksLoop file cs (n + 2) pos)
        = (readlineEnd file (pos + cs) : Int)
          :: internalBounds (getFileChunksLoop file cs (n + 1) (readlineEnd file (pos + cs))) := by
      simp only [getFileChunksLoop]
      rw [internalBounds_cons _ _ hne]
      push_cast
      ring_nf
    rw [hbnd2] at hbnd
    have hhead : (readlineEnd file (pos + cs) : Int) ≤ (file.length : Int) :=
      hbnd _ (List.mem_cons_self _ _)
    have hheadNat : readlineEnd file (pos + cs) ≤ file.length := by exact_mod_cast hhead
    have htail := fun b hb => hbnd b (List.mem_cons_of_mem _ hb)
    obtain ⟨ih1, ih2⟩ := getFileChunksLoop_nonneg file cs (n + 1)
      (readlineEnd file (pos + cs)) (by omega) hheadNat htail
    constructor
    · intro sl hsl
      simp only [getFileChunksLoop, List.mem_cons] at hsl
      rcases hsl with hsl | hsl
      · subst hsl
        have := readlineEnd_ge file (pos + cs)
        simp
        omega
      · exact ih1 sl hsl
    · simp only [getFileChunksLoop]
      rw [finalAbsorbsB_cons file _ _ hne]
      exact ih2

/-- The amended C1 property: the plan has exactly `n` ranges, contiguous,
with signed lengths summing exactly to the file size; every internal
boundary either immediately follows a line terminator or lies at or beyond
end-of-file; and whenever every internal boundary lies within the file, the
ranges are additionally non-overlapping (all lengths nonnegative) and the
final range absorbs all remaining bytes to end-of-file. -/
def chunkPlannerGood (file : FileBytes) (n : Nat) : Prop :=
  (get_file_chunks file n).length = n ∧
  contiguousFromB 0 (get_file_chunks file n) = true ∧
  ((get_file_chunks file n).map Prod.snd).sum = (file.length : Int) ∧
  (∀ b ∈ internalBounds (get_file_chunks file n),
      afterNewlineB file b = true ∨ (file.length : Int) ≤ b) ∧
  ((∀ b ∈ internalBounds (get_file_chunks file n), b ≤ (file.length : Int)) →
    (∀ sl ∈ get_file_chunks file n, 0 ≤ sl.2) ∧
      finalAbsorbsB file (get_file_chunks file n) = true)

/-- **C1 (amended).** For every file and every chunk count `n ≥ 1`,
`get_file_chunks` returns an ordered sequence of exactly `n` byte ranges
that are contiguous and whose signed lengths sum exactly to the file size;
every range boundary except the first either immediately follows a line
terminator or lies at or beyond end-of-file; and when every boundary lies
within the file, the ranges are additionally non-overlapping and the final
chunk absorbs all remaining bytes to end-of-file.  (The unconditional
original claim fails when a `readline` scan hits end-of-file: see
`chunkPlanner_claim_counterexample`.) -/
theorem chunkPlanner_correct (file : FileBytes) (n : Nat) (hn : 1 ≤ n) :
    chunkPlannerGood file n := by
  unfold chunkPlannerGood get_file_chunks
  refine ⟨getFileChunksLoop_length file _ n 0, ?_, ?_,
    getFileChunksLoop_boundary_ok file _ n 0, ?_⟩
  · have h := getFileChunksLoop_contiguous file (file.length / n) n 0
    simpa using h
  · have h := getFileChunksLoop_sum file (file.length / n) n 0 hn
    simpa using h
  · intro hbnd
    exact getFileChunksLoop_nonneg file _ n 0 hn (by omega) hbnd

/-- Witness for C1 (amended): the property evaluated on the concrete file
`"ab\x0acd\x0a"` split into 2 chunks. -/
theorem chunkPlanner_correct_witness :
    1 ≤ 2 ∧ chunkPlannerGood [97, 98, 10, 99, 100, 10] 2 :=
  ⟨by decide, chunkPlanner_correct [97, 98, 10, 99, 100, 10] 2 (by decide)⟩

/-- **C1 counterexample.** On the newline-terminated file `"ab\x0acd\x0a"`
(6 bytes) with `n = 4`, the planner emits the ranges
`[(0,3), (3,3), (6,1), (7,-1)]`: the boundary `7` lies past end-of-file and
does not follow a line terminator, the final range has negative length
(so the ranges are not non-overlapping byte ranges), and the final chunk
starts past end-of-file instead of absorbing the remaining bytes.  Hence
the claim as stated is false. -/
theorem chunkPlanner_claim_counterexample :
    get_file_chunks [97, 98, 10, 99, 100, 10] 4 = [(0, 3), (3, 3), (6, 1), (7, -1)] ∧
      chunkPlanClaimB [97, 98, 10, 99, 100, 10] 4 = false := by decide

/-! ### C2: concatenation of chunk reads -/

theorem fileRead_final (file : FileBytes) (pos : Nat)
    (h : -1 ≤ (file.length : Int) - (pos : Int)) :
    fileRead file pos ((file.length : Int) - (pos : Int)) = some (file.drop pos) := by
  unfold fileRead
  rw [if_neg (by omega)]
  by_cases hle : pos ≤ file.length
  · rw [if_neg (by omega)]
    have h4 : ((file.length : Int) - (pos : Int)).toNat = file.length - pos := by omega
    rw [h4, List.take_of_length_le (by rw [List.length_drop])]
  · rw [if_pos (by omega)]

theorem concatReads_loop (file : FileBytes) (cs : Nat) :
    ∀ (n pos : Nat), 1 ≤ n →
      (∀ sl ∈ getFileChunksLoop file cs n pos, -1 ≤ sl.2) →
      concatReads file (getFileChunksLoop file cs n pos) = some (file.drop pos)
  | 0, _, h, _ => by omega
  | 1, pos, _, hok => by
    have h1 : -1 ≤ (file.length : Int) - (pos : Int) :=
      hok (pos, (file.length : Int) - (pos : Int)) (by simp [getFileChunksLoop])
    simp [getFileChunksLoop, concatReads, fileRead_final file pos h1]
  | n + 2, pos, _, hok => by
    have hge : pos ≤ readlineEnd file (pos + cs) := by
      have := readlineEnd_ge file (pos + cs)
      omega
    have htail : ∀ sl ∈ getFileChunksLoop file cs (n + 1) (readlineEnd file (pos + cs)),
        -1 ≤ sl.2 := by
      intro sl hsl
      refine hok sl ?_
      simp only [getFileChunksLoop, List.mem_cons]
      exact Or.inr hsl
    have ih := concatReads_loop file cs (n + 1) (readlineEnd file (pos + cs)) (by omega) htail
    simp only [getFileChunksLoop, concatReads, fileRead]
    rw [ih]
    have h5 : ¬ ((readlineEnd file (pos + cs) : Int) - (pos : Int) < -1) := by omega
    have h6 : ¬ ((readlineEnd file (pos + cs) : Int) - (pos : Int) < 0) := by omega
    rw [if_neg h5, if_neg h6]
    have h7 : ((readlineEnd file (pos + cs) : Int) - (pos : Int)).toNat
        = readlineEnd file (pos + cs) - pos := by omega
    rw [h7]
    have h8 : file.drop (readlineEnd file (pos + cs))
        = (file.drop pos).drop (readlineEnd file (pos + cs) - pos) := by
      rw [List.drop_drop]
      congr 1
      omega
    rw [h8]
    simp [List.take_append_drop]

/-- **C2 (amended).** For every file and chunk count `n ≥ 1`, if every
planned range has length at least `-1` — so that each `seek`/`read` pair
succeeds (Python file reads reject sizes below `-1`) — then concatenating
the raw bytes read for each range, in plan order, reconstructs the file
byte-for-byte.  (Without the proviso the claim fails: see
`chunkReads_claim_counterexample`.) -/
theorem chunkReads_reconstruct (file : FileBytes) (n : Nat) (hn : 1 ≤ n)
    (hok : ∀ sl ∈ get_file_chunks file n, -1 ≤ sl.2) :
    concatReads file (get_file_chunks file n) = some file := by
  have h := concatReads_loop file (file.length / n) n 0 hn hok
  simpa using h

/-- Witness for C2 (amended), on the file `"ab\x0acd\x0a"` with `n = 4`:
the plan even contains the degenerate range `(7, -1)` (length exactly `-1`,
which reads zero bytes), and concatenation still reconstructs the file. -/
theorem chunkReads_reconstruct_witness :
    1 ≤ 4 ∧ (∀ sl ∈ get_file_chunks [97, 98, 10, 99, 100, 10] 4, -1 ≤ sl.2) ∧
      concatReads [97, 98, 10, 99, 100, 10] (get_file_chunks [97, 98, 10, 99, 100, 10] 4)
        = some [97, 98, 10, 99, 100, 10] :=
  ⟨by decide, by decide,
    chunkReads_reconstruct [97, 98, 10, 99, 100, 10] 4 (by decide) (by decide)⟩

/-- **C2 counterexample.** On the file `"aaaaaaaa\x0a"` (9 bytes, newline
terminated) with `n = 3`, the plan is `[(0,9), (9,3), (12,-3)]`; reading
the final range calls `read(-3)`, which raises `ValueError`, so the
concatenation of chunk reads does not reconstruct the file. -/
theorem chunkReads_claim_counterexample :
    get_file_chunks [97, 97, 97, 97, 97, 97, 97, 97, 10] 3 = [(0, 9), (9, 3), (12, -3)] ∧
      concatReads [97, 97, 97, 97, 97, 97, 97, 97, 10]
        (get_file_chunks [97, 97, 97, 97, 97, 97, 97, 97, 10] 3) = none := by decide

/-! ### Phase 1: per-chunk metric extraction and its merge (C3) -/

/-- A parsed row of the source table restricted to the columns Phase 1
uses (`calc_cols = ["IDLink", "Platform", "TimeSlice", "Popularity"]`).
Key columns are coded as naturals, `Popularity` as a rational. -/
structure Phase1Row where
  idlink : Nat
  platform : Nat
  timeslice : Int
  popularity : ℚ
deriving DecidableEq

/-- One step of a grouped `max` accumulation over an optional running
maximum (`none` while the group has seen no value). -/
def omax (acc : Option ℚ) (x : ℚ) : Option ℚ :=
  match acc with
  | none => some x
  | some y => some (max y x)

/-- `v_chunk` of `process_phase1_range`: the Initial-Velocity candidates —
the rows of the chunk whose `TimeSlice` equals 1, projected to the
`(IDLink, Platform)` key and `Popularity` (renamed `Initial_Velocity`). -/
def vChunk (rows : List Phase1Row) : List ((Nat × Nat) × ℚ) :=
  (rows.filter fun r => r.timeslice = 1).map fun r => ((r.idlink, r.platform), r.popularity)

/-- `m_chunk` of `process_phase1_range`, read off at one key: the partial
maximum of `Popularity` grouped by `(IDLink, Platform)`; `none` when the
key has no row in the chunk (the key is then absent from the grouped
table). -/
def partialMaxScore (rows : List Phase1Row) (k : Nat × Nat) : Option ℚ :=
  ((rows.filter fun r => (r.idlink, r.platform) = k).map fun r => r.popularity).foldl omax none

/-- One step of the Reducer for Phase 1 maxima: fold the partial maximum
of one chunk into the running global maximum; a chunk lacking the key
contributes nothing. -/
def mergeStep (acc : Option ℚ) (o : Option ℚ) : Option ℚ :=
  match o with
  | none => acc
  | some x => omax acc x

/-- Modelled from the spec: the Reducer of Phase 1 (the merge step lives in
the orchestration layer, not in the worker module): the global
`Final_Score` of a key is the maximum of the per-chunk partial maxima for
that key. -/
def mergeMaxima (parts : List (Option ℚ)) : Option ℚ :=
  parts.foldl mergeStep none

/-- Modelled from the spec: the Initial-Velocity lookup retains the
arbitrarily-first candidate for a key, in concatenation order (a duplicate
key across chunks is a source-data anomaly). -/
def firstVelocity (cands : List ((Nat × Nat) × ℚ)) (k : Nat × Nat) : Option ℚ :=
  (cands.find? fun kv => kv.1 = k).map fun kv => kv.2

theorem omax_assoc (a : Option ℚ) (x y : ℚ) : omax (omax a x) y = omax a (max x y) := by
  cases a <;> simp [omax, max_assoc]

theorem mergeStep_omax (a : Option ℚ) (x : ℚ) (m : Option ℚ) :
    mergeStep (omax a x) m = mergeStep a (mergeStep (some x) m) := by
  cases m <;> cases a <;> simp [mergeStep, omax, max_assoc]

theorem foldl_omax_eq_mergeStep (l : List ℚ) :
    ∀ a : Option ℚ, l.foldl omax a = mergeStep a (l.foldl omax none) := by
  induction l with
  | nil => intro a; rfl
  | cons x l ih =>
    intro a
    rw [List.foldl_cons, List.foldl_cons, ih (omax a x), ih (omax none x)]
    have h : omax none x = some x := rfl
    rw [h, mergeStep_omax]

theorem partialMaxScore_append (c₁ c₂ : List Phase1Row) (k : Nat × Nat) :
    partialMaxScore (c₁ ++ c₂) k
      = mergeStep (partialMaxScore c₁ k) (partialMaxScore c₂ k) := by
  unfold partialMaxScore
  rw [List.filter_append, List.map_append, List.foldl_append]
  exact foldl_omax_eq_mergeStep _ _

theorem mergeStep_assoc (a b c : Option ℚ) :
    mergeStep (mergeStep a b) c = mergeStep a (mergeStep b c) := by
  cases b <;> cases c <;> cases a <;> simp [mergeStep, omax, max_assoc]

theorem mergeMaxima_loop (k : Nat × Nat) :
    ∀ (chunks : List (List Phase1Row)) (acc : Option ℚ),
      (chunks.map fun c => partialMaxScore c k).foldl mergeStep acc
        = mergeStep acc (partialMaxScore chunks.flatten k) := by
  intro chunks
  induction chunks with
  | nil =>
    intro acc
    simp [partialMaxScore, mergeStep]
  | cons c cs ih =>
    intro acc
    rw [List.map_cons, List.foldl_cons, ih, List.flatten_cons, partialMaxScore_append,
      mergeStep_assoc]

theorem vChunk_join (chunks : List (List Phase1Row)) :
    (chunks.map vChunk).flatten = vChunk chunks.flatten := by
  induction chunks with
  | nil => rfl
  | cons c cs ih =>
    rw [List.map_cons, List.flatten_cons, List.flatten_cons, ih]
    unfold vChunk
    rw [List.filter_append, List.map_append]

/-- **C3.** For any partition of the input rows into chunks, merging the
per-chunk Phase-1 partial results reproduces the single-pass computation:
the maximum of the per-chunk partial maxima for a key equals the global
maximum of `Popularity` for that key (with `none` exactly when the key is
absent), and the concatenated Initial-Velocity candidates are exactly the
single-pass candidates, so the first-per-key lookup agrees as well. -/
theorem phase1_merge_refines_single_pass (chunks : List (List Phase1Row)) (k : Nat × Nat) :
    mergeMaxima (chunks.map fun c => partialMaxScore c k) = partialMaxScore chunks.flatten k ∧
      (chunks.map vChunk).flatten = vChunk chunks.flatten ∧
      firstVelocity (chunks.map vChunk).flatten k = firstVelocity (vChunk chunks.flatten) k := by
  refine ⟨?_, vChunk_join chunks, by rw [vChunk_join chunks]⟩
  unfold mergeMaxima
  rw [mergeMaxima_loop k chunks none]
  rcases h : partialMaxScore chunks.flatten k with _ | x <;> simp [mergeStep, omax]

/-! ### Binned/weighted-mean aggregation (C4) -/

/-- The rows of `rows` that fall in group `g` under the (pure) group
assignment `grp` — one group of a worker-side `groupby`. -/
def groupRows {Row Key : Type} [DecidableEq Key] (grp : Row → Key)
    (rows : List Row) (g : Key) : List Row :=
  rows.filter fun r => grp r = g

/-- The `sum` cell a worker returns for group `g` and metric `m`
(one entry of the `.agg(['sum', 'count'])` table of
`process_content_aggregation` / `process_topic_lifecycle`). -/
def partialSum {Row Key : Type} [DecidableEq Key] (grp : Row → Key) (m : Row → ℚ)
    (rows : List Row) (g : Key) : ℚ :=
  ((groupRows grp rows g).map m).sum

/-- The `count` cell a worker returns for group `g`. -/
def partialCount {Row Key : Type} [DecidableEq Key] (grp : Row → Key)
    (rows : List Row) (g : Key) : Nat :=
  (groupRows grp rows g).length

/-- Modelled from the spec: the Reducer adds the per-chunk partial sums
for a group (a chunk without the group contributes 0). -/
def totalSum {Row Key : Type} [DecidableEq Key] (grp : Row → Key) (m : Row → ℚ)
    (chunks : List (List Row)) (g : Key) : ℚ :=
  (chunks.map fun c => partialSum grp m c g).sum

/-- Modelled from the spec: the Reducer adds the per-chunk partial counts
for a group. -/
def totalCount {Row Key : Type} [DecidableEq Key] (grp : Row → Key)
    (chunks : List (List Row)) (g : Key) : Nat :=
  (chunks.map fun c => partialCount grp c g).sum

theorem groupRows_join {Row Key : Type} [DecidableEq Key] (grp : Row → Key)
    (chunks : List (List Row)) (g : Key) :
    groupRows grp chunks.flatten g = (chunks.map fun c => groupRows grp c g).flatten := by
  induction chunks with
  | nil => rfl
  | cons c cs ih =>
    rw [List.flatten_cons, List.map_cons, List.flatten_cons, ← ih]
    unfold groupRows
    rw [List.filter_append]

theorem totalSum_eq (Row Key : Type) [DecidableEq Key] (grp : Row → Key) (m : Row → ℚ)
    (chunks : List (List Row)) (g : Key) :
    totalSum grp m chunks g = partialSum grp m chunks.flatten g := by
  induction chunks with
  | nil => rfl
  | cons c cs ih =>
    have h : totalSum grp m (c :: cs) g = partialSum grp m c g + totalSum grp m cs g := by
      unfold totalSum
      rw [List.map_cons, List.sum_cons]
    rw [h, ih, List.flatten_cons]
    unfold partialSum groupRows
    rw [List.filter_append, List.map_append, List.sum_append]

theorem totalCount_eq (Row Key : Type) [DecidableEq Key] (grp : Row → Key)
    (chunks : List (List Row)) (g : Key) :
    totalCount grp chunks g = partialCount grp chunks.flatten g := by
  induction chunks with
  | nil => rfl
  | cons c cs ih =>
    have h : totalCount grp (c :: cs) g = partialCount grp c g + totalCount grp cs g := by
      unfold totalCount
      rw [List.map_cons, List.sum_cons]
    rw [h, ih, List.flatten_cons]
    unfold partialCount groupRows
    rw [List.filter_append, List.length_append]

/-- **C4.** For every grouped aggregation (any pure group assignment `grp`
and metric `m`), every partition of the dataset into chunks, and every
group `g`: the Reducer totals equal the single-pass totals, and therefore
`total_sum / total_count` equals the mean computed directly over the full
dataset restricted to `g` (rational arithmetic models exact real
arithmetic; the group assignment is a function of the row, so every chunk
assigns a row to the same group as the unchunked computation). -/
theorem grouped_weighted_mean_correct {Row Key : Type} [DecidableEq Key]
    (grp : Row → Key) (m : Row → ℚ) (chunks : List (List Row)) (g : Key) :
    totalSum grp m chunks g = partialSum grp m chunks.flatten g ∧
      totalCount grp chunks g = partialCount grp chunks.flatten g ∧
      totalSum grp m chunks g / (totalCount grp chunks g : ℚ)
        = partialSum grp m chunks.flatten g / (partialCount grp chunks.flatten g : ℚ) := by
  refine ⟨totalSum_eq Row Key grp m chunks g, totalCount_eq Row Key grp chunks g, ?_⟩
  rw [totalSum_eq Row Key grp m chunks g, totalCount_eq Row Key grp chunks g]

/-! ### Chunk Reader behaviour on empty spans (C5) -/

/-- Split a byte span into raw lines at newline bytes; `acc` holds the
bytes of the current line in reverse.  A trailing newline does not open an
extra empty line. -/
def splitLinesAux (acc : List Nat) : List Nat → List (List Nat)
  | [] => if acc = [] then [] else [acc.reverse]
  | b :: rest => if b = 10 then acc.reverse :: splitLinesAux [] rest
      else splitLinesAux (b :: acc) rest

/-- The parsable CSV lines of a byte span: raw lines with blank lines
skipped (pandas `skip_blank_lines` default). -/
def csvLines (data : List Nat) : List (List Nat) :=
  (splitLinesAux [] data).filter fun l => l ≠ []

/-- Split one line into its comma-separated fields (empty fields kept). -/
def splitFieldsAux (acc : List Nat) : List Nat → List (List Nat)
  | [] => [acc.reverse]
  | b :: rest => if b = 44 then acc.reverse :: splitFieldsAux [] rest
      else splitFieldsAux (b :: acc) rest

/-- The error `pd.read_csv` raises when the span holds no parsable line
(`pandas.errors.EmptyDataError`). -/
inductive CsvError
  | emptyData
deriving DecidableEq

/-- A parsed chunk: the data rows, each a list of fields. -/
abbrev CsvChunk := List (List (List Nat))

/-- `pd.read_csv` on a byte buffer: raise `EmptyDataError` when no
parsable line is present; otherwise, when the buffer is the start of the
file (`hasHeader`), consume the first line as the header and parse the
rest as rows, else parse every line as a row (the supplied
`header_names` only name columns and do not affect row parsing). -/
def parse_csv (data : List Nat) (hasHeader : Bool) : Except CsvError CsvChunk :=
  if csvLines data = [] then .error .emptyData
  else .ok (((if hasHeader then (csvLines data).drop 1 else csvLines data)).map
    (splitFieldsAux []))

/-- `read_csv_chunk(file_path, start_byte, num_bytes, header_names)`:
seek and read the byte range, then parse it; the header is looked for
exactly when `start_byte = 0`.  The outer `Option` is the read itself
(`none` would be an uncaught `ValueError` from a negative size). -/
def read_csv_chunk (file : FileBytes) (startByte : Nat) (numBytes : Int) :
    Option (Except CsvError CsvChunk) :=
  (fileRead file startByte numBytes).map fun data => parse_csv data (startByte = 0)

/-- The shared prologue of every phase worker (`process_phase1_range`,
`process_phase2_merge`, `process_extract_unique_nlp`, ...): perform the
chunk read inside `try`, turning `EmptyDataError` into the explicit
absent result `None`; also return `None` when the parsed chunk is empty;
otherwise apply the phase body. -/
def phaseOnRange {α : Type} (body : CsvChunk → α) (file : FileBytes)
    (startByte : Nat) (numBytes : Int) : Option (Option α) :=
  (read_csv_chunk file startByte numBytes).map fun res =>
    match res with
    | .error .emptyData => none
    | .ok chunk => if chunk = [] then none else some (body chunk)

/-- Modelled from the spec: the Reducer combines the per-chunk partial
results after discarding the absent (`None`) ones. -/
def reduceParts {α : Type} (parts : List (Option α)) : List α :=
  parts.filterMap id

/-- **C5 (amended).** A zero-byte span makes the Chunk Reader raise
`EmptyDataError` — it is an error at the reader level, not an
explicitly-empty Chunk — and every Phase Operation catches it and returns
the explicit absent result `None`; a span at the start of the file whose
only content is consumed as the header does yield an explicitly-empty
Chunk without error, and the Phase Operation again returns `None`; absent
results are excluded from the Reducer's combination. -/
theorem emptyChunk_explicit {α : Type} (body : CsvChunk → α) (file : FileBytes)
    (startByte : Nat) (numBytes : Int) (data : List Nat)
    (hread : fileRead file startByte numBytes = some data) (parts : List (Option α)) :
    (data = [] →
      read_csv_chunk file startByte numBytes = some (.error .emptyData) ∧
        phaseOnRange body file startByte numBytes = some none) ∧
    (startByte = 0 → csvLines data ≠ [] → (csvLines data).drop 1 = [] →
      read_csv_chunk file startByte numBytes = some (.ok []) ∧
        phaseOnRange body file startByte numBytes = some none) ∧
    reduceParts (none :: parts) = reduceParts parts := by
  refine ⟨?_, ?_, rfl⟩
  · intro hdata
    subst hdata
    have h : read_csv_chunk file startByte numBytes = some (.error .emptyData) := by
      unfold read_csv_chunk
      rw [hread, Option.map_some']
      rfl
    refine ⟨h, ?_⟩
    unfold phaseOnRange
    rw [h, Option.map_some']
  · intro hstart hne hdrop
    subst hstart
    have h : read_csv_chunk file 0 numBytes = some (.ok []) := by
      unfold read_csv_chunk
      rw [hread, Option.map_some']
      unfold parse_csv
      rw [if_neg hne]
      simp [hdrop]
    refine ⟨h, ?_⟩
    unfold phaseOnRange
    rw [h, Option.map_some']
    rfl

/-- Witness for C5 on the two-byte file `"H\x0a"` (a single header line):
the zero-byte span `(2, 0)` parses to `EmptyDataError` and the phase
returns `None`; the header-only span `(0, 2)` parses to an empty chunk
and the phase returns `None`; the Reducer drops a `None`. -/
theorem emptyChunk_explicit_witness :
    (read_csv_chunk [72, 10] 2 0 = some (.error .emptyData) ∧
      phaseOnRange (fun c => c.length) [72, 10] 2 0 = some none) ∧
    ((read_csv_chunk [72, 10] 0 2 = some (.ok []) ∧
      phaseOnRange (fun c => c.length) [72, 10] 0 2 = some none) ∧
    reduceParts [none, some 3] = reduceParts [some 3]) :=
  ⟨(emptyChunk_explicit (fun c => c.length) [72, 10] 2 0 [] (by decide) []).1 rfl,
    ((emptyChunk_explicit (fun c => c.length) [72, 10] 0 2 [72, 10]
      (by decide) [some 3]).2.1 rfl (by decide) (by decide)),
    (emptyChunk_explicit (fun c => c.length) [72, 10] 0 2 [72, 10]
      (by decide) [some 3]).2.2⟩

/-- **C5 counterexample.** Parsing the zero-byte span `(2, 0)` of the file
`"H\x0a"` through the Chunk Reader yields `EmptyDataError`: the reader
errors instead of yielding an explicitly-empty Chunk, so the claim that an
empty byte span "yields an explicitly-empty Chunk and is not an error" at
the Chunk Reader is false (the workers recover only because they catch
this error). -/
theorem chunkReader_emptySpan_counterexample :
    read_csv_chunk [72, 10] 2 0 = some (.error .emptyData) := rfl

/-! ### Pass-B merge: column idempotence (C6) -/

/-- Column names of `pd.merge(left, right, on=keys, how="left")`: the left
columns, then the non-key right columns; a non-key column present on both
sides is emitted twice, suffixed `_x` (left copy) and `_y` (right copy). -/
def mergeColumns (left right keys : List String) : List String :=
  (left.map fun c => if c ∈ right ∧ c ∉ keys then c ++ "_x" else c) ++
    ((right.filter fun c => c ∉ keys).map fun c => if c ∈ left then c ++ "_y" else c)

/-- The column effect of one Pass-B merge worker (`process_phase2_merge`,
`process_nlp_merge`, `process_market_merge`): drop the derived columns of
`colsToClean` already present in the chunk, then left-join the lookup
table (columns `lookupCols`) on the key columns `keys`. -/
def passBColumns (colsToClean lookupCols keys cols : List String) : List String :=
  mergeColumns (cols.filter fun c => c ∉ colsToClean) lookupCols keys

theorem passBColumns_eq (colsToClean lookupCols keys cols : List String)
    (hclean : ∀ c ∈ lookupCols, c ∉ keys → c ∈ colsToClean) :
    passBColumns colsToClean lookupCols keys cols
      = (cols.filter fun c => c ∉ colsToClean) ++ (lookupCols.filter fun c => c ∉ keys) := by
  unfold passBColumns mergeColumns
  congr 1
  · have h1 : ∀ c ∈ cols.filter (fun c => c ∉ colsToClean),
        (if c ∈ lookupCols ∧ c ∉ keys then c ++ "_x" else c) = c := by
      intro c hc
      rw [List.mem_filter] at hc
      rw [if_neg]
      rintro ⟨h2, h3⟩
      have h4 := hclean c h2 h3
      simp at hc
      exact hc.2 h4
    rw [List.map_congr_left h1, List.map_id']
  · have h1 : ∀ c ∈ lookupCols.filter (fun c => c ∉ keys),
        (if c ∈ cols.filter (fun c => c ∉ colsToClean) then c ++ "_y" else c) = c := by
      intro c hc
      rw [List.mem_filter] at hc
      rw [if_neg]
      intro h2
      rw [List.mem_filter] at h2
      simp at hc h2
      exact h2.2 (hclean c hc.1 hc.2)
    rw [List.map_congr_left h1, List.map_id']

/-- **C6.** Provided the drop list contains every derived (non-key) column
of the lookup, a Pass-B merge is idempotent on columns: running the
drop-then-left-join twice produces exactly the columns of running it once
(no derived column is ever duplicated or suffixed). -/
theorem passB_merge_idempotent (colsToClean lookupCols keys cols : List String)
    (hclean : ∀ c ∈ lookupCols, c ∉ keys → c ∈ colsToClean) :
    passBColumns colsToClean lookupCols keys (passBColumns colsToClean lookupCols keys cols)
      = passBColumns colsToClean lookupCols keys cols := by
  rw [passBColumns_eq colsToClean lookupCols keys cols hclean]
  rw [passBColumns_eq colsToClean lookupCols keys _ hclean]
  congr 1
  rw [List.filter_append]
  have h1 : (cols.filter fun c => c ∉ colsToClean).filter (fun c => c ∉ colsToClean)
      = cols.filter fun c => c ∉ colsToClean := by
    apply List.filter_eq_self.mpr
    intro c hc
    rw [List.mem_filter] at hc
    exact hc.2
  have h2 : (lookupCols.filter fun c => c ∉ keys).filter (fun c => c ∉ colsToClean) = [] := by
    rw [List.filter_eq_nil_iff]
    intro c hc
    rw [List.mem_filter] at hc
    simp only [decide_eq_true_eq] at hc ⊢
    intro hcc
    exact hcc (hclean c hc.1 hc.2)
  rw [h1, h2, List.append_nil]

/-- Witness for C6 on the Phase-2 numeric-metrics merge: the shard columns
after one merge and after a second merge coincide. -/
theorem passB_merge_idempotent_witness :
    (∀ c ∈ ["IDLink", "Platform", "Initial_Velocity", "Final_Score"],
      c ∉ ["IDLink", "Platform"] → c ∈ ["Initial_Velocity", "Final_Score"]) ∧
    passBColumns ["Initial_Velocity", "Final_Score"]
        ["IDLink", "Platform", "Initial_Velocity", "Final_Score"] ["IDLink", "Platform"]
        (passBColumns ["Initial_Velocity", "Final_Score"]
          ["IDLink", "Platform", "Initial_Velocity", "Final_Score"] ["IDLink", "Platform"]
          ["IDLink", "Platform", "Popularity"])
      = passBColumns ["Initial_Velocity", "Final_Score"]
          ["IDLink", "Platform", "Initial_Velocity", "Final_Score"] ["IDLink", "Platform"]
          ["IDLink", "Platform", "Popularity"] :=
  ⟨by decide, passB_merge_idempotent ["Initial_Velocity", "Final_Score"]
    ["IDLink", "Platform", "Initial_Velocity", "Final_Score"] ["IDLink", "Platform"]
    ["IDLink", "Platform", "Popularity"] (by decide)⟩

/-! ### Pass-B merges: fill behaviour on unmatched keys (C7, C10) -/

/-- The Phase-1 metrics record `process_phase2_merge` joins in:
`Initial_Velocity` and `Final_Score` for one `(IDLink, Platform)` key. -/
structure MetricsRec where
  initialVelocity : ℚ
  finalScore : ℚ
deriving DecidableEq

/-- The left join of one row against `metrics_df` on `(IDLink, Platform)`:
the matched record, or a missing value when the key is absent. -/
def metricsJoinRow (metrics : List ((Nat × Nat) × MetricsRec)) (key : Nat × Nat) :
    Option MetricsRec :=
  (metrics.find? fun kv => kv.1 = key).map fun kv => kv.2

/-- The derived cells `process_phase2_merge` writes for one row of its
shard: the joined values, with missing cells (`none`, pandas `NaN`) kept —
no `fillna` follows this join. -/
def process_phase2_mergeRow (metrics : List ((Nat × Nat) × MetricsRec))
    (key : Nat × Nat) : Option ℚ × Option ℚ :=
  ((metricsJoinRow metrics key).map fun r => r.initialVelocity,
    (metricsJoinRow metrics key).map fun r => r.finalScore)

/-- `fillna(d)` on one cell: a missing value becomes `d`, a present value
is kept. -/
def fillna (d : ℚ) (o : Option ℚ) : Option ℚ := some (o.getD d)

/-- The NLP feature record `process_nlp_merge` joins in, keyed by
`IDLink`. -/
structure NlpRec where
  titleSentiment : ℚ
  sentimentDivergence : ℚ
  titleComplexity : ℚ
deriving DecidableEq

/-- The left join of one row against `nlp_df` on `IDLink`. -/
def nlpJoinRow (nlp : List (Nat × NlpRec)) (id : Nat) : Option NlpRec :=
  (nlp.find? fun kv => kv.1 = id).map fun kv => kv.2

/-- The derived cells `process_nlp_merge` writes for one row:
`Title_Sentiment`, `Sentiment_Divergence`, `Title_Complexity` from the
left join, each passed through `fillna(0.0)`. -/
def process_nlp_mergeRow (nlp : List (Nat × NlpRec)) (id : Nat) :
    Option ℚ × Option ℚ × Option ℚ :=
  (fillna 0 ((nlpJoinRow nlp id).map fun r => r.titleSentiment),
    fillna 0 ((nlpJoinRow nlp id).map fun r => r.sentimentDivergence),
    fillna 0 ((nlpJoinRow nlp id).map fun r => r.titleComplexity))

/-- The left join of one row against `market_df` (the `Opportunity_Score`
per `IDLink`) in `process_market_merge`. -/
def marketJoinRow (market : List (Nat × ℚ)) (id : Nat) : Option ℚ :=
  (market.find? fun kv => kv.1 = id).map fun kv => kv.2

/-- The `Opportunity_Score` cell `process_market_merge` writes for one
row: the left join passed through `fillna(0.0)` (0 models infinite
competitive saturation, the documented worst-case default). -/
def process_market_mergeRow (market : List (Nat × ℚ)) (id : Nat) : Option ℚ :=
  fillna 0 (marketJoinRow market id)

/-- **C7 (amended).** In the NLP and market Pass-B merges, a row whose key
is absent from the lookup is filled with the documented default `0.0` for
`Title_Sentiment`, `Sentiment_Divergence`, `Title_Complexity` and
`Opportunity_Score` rather than left absent.  (Not every Pass-B merge
fills: the Phase-2 numeric-metrics merge leaves unmatched cells missing —
see `passB_fill_claim_counterexample` and C10.) -/
theorem passB_join_miss_defaults (nlp : List (Nat × NlpRec)) (market : List (Nat × ℚ))
    (idN idM : Nat) (hN : nlpJoinRow nlp idN = none) (hM : marketJoinRow market idM = none) :
    process_nlp_mergeRow nlp idN = (some 0, some 0, some 0) ∧
      process_market_mergeRow market idM = some 0 := by
  constructor
  · unfold process_nlp_mergeRow
    rw [hN]
    rfl
  · unfold process_market_mergeRow
    rw [hM]
    rfl

/-- Witness for C7 (amended): an empty NLP lookup and a market lookup
without the key 3 both fill with `0.0`. -/
theorem passB_join_miss_defaults_witness :
    (nlpJoinRow [] 1 = none ∧ marketJoinRow [(5, 1/2)] 3 = none) ∧
      process_nlp_mergeRow [] 1 = (some 0, some 0, some 0) ∧
        process_market_mergeRow [(5, 1/2)] 3 = some 0 :=
  ⟨⟨rfl, rfl⟩, passB_join_miss_defaults [] [(5, 1/2)] 1 3 rfl rfl⟩

/-- **C7 counterexample.** The Phase-2 metrics merge is a Pass-B merge,
yet a row whose `(IDLink, Platform)` key misses the lookup is written with
`Initial_Velocity` and `Final_Score` left absent (`NaN`), not filled with
a default: the claim quantified over every Pass-B merge is false. -/
theorem passB_fill_claim_counterexample :
    process_phase2_mergeRow [((1, 1), MetricsRec.mk 2 3)] (0, 0) = (none, none) := rfl

/-- **C10.** In `process_phase2_merge`, a row whose `(IDLink, Platform)`
key is absent from the merged metrics lookup is written to its shard with
`Initial_Velocity` and `Final_Score` left missing (`NaN`): no default fill
is applied after the left join. -/
theorem phase2_join_miss_left_missing (metrics : List ((Nat × Nat) × MetricsRec))
    (key : Nat × Nat) (h : metricsJoinRow metrics key = none) :
    process_phase2_mergeRow metrics key = (none, none) := by
  unfold process_phase2_mergeRow
  rw [h]
  rfl

/-- Witness for C10: a lookup holding only key `(1, 1)` misses key
`(0, 0)`, whose derived cells stay missing. -/
theorem phase2_join_miss_left_missing_witness :
    metricsJoinRow [((1, 1), MetricsRec.mk 2 3)] (0, 0) = none ∧
      process_phase2_mergeRow [((1, 1), MetricsRec.mk 2 3)] (0, 0) = (none, none) :=
  ⟨rfl, phase2_join_miss_left_missing [((1, 1), MetricsRec.mk 2 3)] (0, 0) rfl⟩

/-! ### Text feature scorers are total (C8) -/

/-- A text value, modelled as the list of whitespace-separated words of
`str(text)` (so every Python value, string or not, has an image here). -/
abbrev Text := List String

/-- `get_sentiment`: query the external scorer (`TextBlob(...).sentiment.polarity`),
catching every failure and returning `0.0` instead.  The scorer is a
parameter `polarity`; `none` models a raised exception. -/
def get_sentiment (polarity : Text → Option ℚ) (t : Text) : ℚ :=
  (polarity t).getD 0

/-- `get_complexity`: `0.0` for empty text, otherwise word count plus
average word length. -/
def get_complexity (t : Text) : ℚ :=
  if t = [] then 0
  else (t.length : ℚ) + ((t.map fun w => (w.length : ℚ)).sum) / (t.length : ℚ)

/-- A row of the deduplicated unique-article table
`process_nlp_calculation` receives. -/
structure NlpInRow where
  idlink : Nat
  title : Text
  headline : Text

/-- `process_nlp_calculation`: for every row of the chunk, compute
`Title_Sentiment`, `Sentiment_Divergence` (absolute difference of title
and headline sentiment) and `Title_Complexity`, keyed by `IDLink`. -/
def process_nlp_calculation (polarity : Text → Option ℚ) (rows : List NlpInRow) :
    List (Nat × ℚ × ℚ × ℚ) :=
  rows.map fun r =>
    (r.idlink, get_sentiment polarity r.title,
      |get_sentiment polarity r.title - get_sentiment polarity r.headline|,
      get_complexity r.title)

/-- **C8.** The text scorers are total: `get_sentiment` returns exactly
`0.0` whenever the underlying scorer fails, `get_complexity` returns `0.0`
on empty text, and a row whose texts both fail to score still yields a
feature record of zeros while every other row of the chunk keeps its
independently computed features — one bad text never aborts the chunk. -/
theorem scorer_failure_isolated (polarity : Text → Option ℚ)
    (pre post : List NlpInRow) (r : NlpInRow)
    (hT : polarity r.title = none) (hH : polarity r.headline = none) :
    get_sentiment polarity r.title = 0 ∧
      get_complexity [] = 0 ∧
      process_nlp_calculation polarity (pre ++ r :: post)
        = process_nlp_calculation polarity pre
            ++ (r.idlink, 0, 0, get_complexity r.title)
              :: process_nlp_calculation polarity post := by
  refine ⟨by simp [get_sentiment, hT], by simp [get_complexity], ?_⟩
  unfold process_nlp_calculation
  rw [List.map_append, List.map_cons]
  simp [get_sentiment, hT, hH]

/-- Witness for C8: a chunk of two rows in which the first row's title and
headline both fail to score; the failing row yields zeros and the other
row is still processed. -/
theorem scorer_failure_isolated_witness :
    get_sentiment (fun _ => none) ([] : Text) = 0 ∧
      get_complexity [] = 0 ∧
      process_nlp_calculation (fun _ => none)
          ([] ++ NlpInRow.mk 1 [] [] :: [NlpInRow.mk 2 ["ok"] ["ok"]])
        = process_nlp_calculation (fun _ => none) []
            ++ (1, 0, 0, get_complexity ([] : Text))
              :: process_nlp_calculation (fun _ => none) [NlpInRow.mk 2 ["ok"] ["ok"]] :=
  scorer_failure_isolated (fun _ => none) [] [NlpInRow.mk 2 ["ok"] ["ok"]]
    (NlpInRow.mk 1 [] []) rfl rfl

/-! ### Sampling phases are deterministic (C9) -/

/-- A deterministic stand-in for the seeded pandas sampler:
`df.sample(frac=f, random_state=s)` is a pure function of the seed, the
fraction and the rows.  (The concrete selection rule is immaterial to the
claim; only that it is a function of exactly these inputs is.) -/
def seededSample {α : Type} (seed : Nat) (frac : ℚ) (rows : List α) : List α :=
  (rows.enum.filter fun p => (p.1 + seed) % (max 1 (⌈frac⁻¹⌉).toNat) = 0).map Prod.snd

/-- `df.sample(frac, random_state)`: with `random_state = some s` the draw
depends only on `s`, the fraction and the rows; with `random_state = none`
it consumes the ambient RNG state `env`, a fresh nondeterministic value
per call. -/
def pandasSample {α : Type} (env : Nat) (randomState : Option Nat) (frac : ℚ)
    (rows : List α) : List α :=
  seededSample (randomState.getD env) frac rows

/-- A row of the columns `process_quadrant_extraction` reads; the two
metrics its `dropna` inspects are optional (`none` is `NaN`). -/
structure QuadrantRow where
  idlink : Nat
  initialVelocity : Option ℚ
  stickinessIndex : Option ℚ
deriving DecidableEq

/-- `process_quadrant_extraction` after the chunk read: `None` for an
empty chunk; otherwise drop the rows with missing `Initial_Velocity` or
`Stickiness_Index`, then draw the 2% sample with the fixed seed 42
(`env` is the ambient RNG state the call would consume were the seed not
fixed). -/
def process_quadrant_extraction (env : Nat) (chunk : List QuadrantRow) :
    Option (List QuadrantRow) :=
  if chunk = [] then none
  else some (pandasSample env (some 42) (2 / 100)
    (chunk.filter fun r => r.initialVelocity ≠ none ∧ r.stickinessIndex ≠ none))

/-- `process_content_sampling` after the chunk read, a chunk being its
`Title_Complexity` cells: `None` for an empty chunk; keep the values
strictly above 0 (dropping the 0.0 sentinel and `NaN`, which compares
false); `None` again when nothing remains; else the 1% sample with the
fixed seed 42. -/
def process_content_sampling (env : Nat) (chunk : List (Option ℚ)) :
    Option (List (Option ℚ)) :=
  if chunk = [] then none
  else
    let valid := chunk.filter fun c =>
      match c with
      | some v => decide (0 < v)
      | none => false
    if valid = [] then none
    else some (pandasSample env (some 42) (1 / 100) valid)

/-- **C9.** Both sampling Phase Operations are deterministic: because the
sample is drawn with the fixed seed 42, two runs of the same chunk under
arbitrary (distinct) ambient RNG states produce identical samples; the
quadrant sample is moreover exactly the fixed-fraction 2% seeded sample of
the rows remaining after the missing-metric exclusion, applied before
sampling. -/
theorem sampling_deterministic (env₁ env₂ : Nat) (chunkQ : List QuadrantRow)
    (chunkC : List (Option ℚ)) :
    process_quadrant_extraction env₁ chunkQ = process_quadrant_extraction env₂ chunkQ ∧
      process_content_sampling env₁ chunkC = process_content_sampling env₂ chunkC ∧
      process_quadrant_extraction env₁ chunkQ
        = (if chunkQ = [] then none
            else some (seededSample 42 (2 / 100)
              (chunkQ.filter fun r => r.initialVelocity ≠ none ∧ r.stickinessIndex ≠ none))) :=
  ⟨rfl, rfl, rfl⟩

end Dynamics
